import Mathlib

/-!
# NLBackend — verification of the storage engine and deterministic runtime

Shallow embedding of the NLBackend core (file-based record store, rule
engine, action executor, workflow saga executor) together with proofs
settling the frozen claims about its natural-language specification.

Modelling conventions, used uniformly below:
* A JavaScript runtime value is the inductive `Value`.  `Value.undefined`
  models `undefined` (property access on a missing key), `Value.null`
  models `null`.  Objects are association lists; JavaScript strict
  equality (`===`) on objects is reference identity, which we model as
  `false` for any two object values (the embedded code never compares an
  object against itself through an alias).
* A record (one JSON file on disk) is `Rec`, an association list with
  unique keys preserved by `setField` exactly as a JavaScript object
  preserves insertion order and updates in place.
* Timestamps (`new Date().toISOString()`) are abstracted as integers:
  ISO-8601 strings produced by a given clock compare lexicographically
  exactly as the instants compare, so the order structure is preserved.
* Generated UUIDs and clock readings are passed as explicit arguments.
* Disk and WAL I/O becomes explicit state: a collection's state is its
  list of records, its in-memory indexes, and the list of WAL entries.
-/

namespace NLBackend

/-- A JavaScript value as it appears in records, filters and step
configuration.  `undefined` is JavaScript `undefined`; arrays are not needed
by any embedded function and are omitted. -/
inductive Value where
  | null : Value
  | undefined : Value
  | bool : Bool → Value
  | num : Int → Value
  | str : String → Value
  | obj : List (String × Value) → Value

/-- JavaScript strict equality `===`.  Primitives compare by value;
two object values are compared by reference, modelled as never equal. -/
def strictEq : Value → Value → Bool
  | .null, .null => true
  | .undefined, .undefined => true
  | .bool a, .bool b => a == b
  | .num a, .num b => a == b
  | .str a, .str b => a == b
  | _, _ => false

/-- JavaScript `String(value)` for the values above (used for index keys). -/
def toStringJS : Value → String
  | .null => "null"
  | .undefined => "undefined"
  | .bool true => "true"
  | .bool false => "false"
  | .num n => toString n
  | .str s => s
  | .obj _ => "[object Object]"

/-- JavaScript truthiness of a value (`if (value) ...`). -/
def truthy : Value → Bool
  | .null => false
  | .undefined => false
  | .bool b => b
  | .num n => n != 0
  | .str s => s != ""
  | .obj _ => true

/-- `s.startsWith(pre)`, computed on the character list (the library
`String.startsWith` is not kernel-reducible). -/
def strStartsWith (s pre : String) : Bool :=
  pre.data.isPrefixOf s.data

/-- `s.endsWith(suf)`, computed on the character list. -/
def strEndsWith (s suf : String) : Bool :=
  suf.data.isSuffixOf s.data

/-- `s.slice(n)`: drop the first `n` characters. -/
def sliceFrom (s : String) (n : Nat) : String :=
  ⟨s.data.drop n⟩

/-- `s.slice(0, s.length - n)`: drop the last `n` characters. -/
def dropRightN (s : String) (n : Nat) : String :=
  ⟨s.data.take (s.data.length - n)⟩

/-- `String.prototype.split` on a single-character separator, on the
character list. -/
def splitChars (sep : Char) : List Char → List (List Char)
  | [] => [[]]
  | c :: rest =>
    let r := splitChars sep rest
    if c == sep then [] :: r
    else
      match r with
      | [] => [[c]]
      | h :: t => (c :: h) :: t

/-- `str.split(".")`. -/
def splitOnDot (s : String) : List String :=
  (splitChars '.' s.data).map (fun cs => ⟨cs⟩)

/-- First-match association-list lookup (JavaScript `map[key]` /
`Map.get`, where keys are unique). -/
def lookupA {β : Type} : List (String × β) → String → Option β
  | [], _ => none
  | (k, v) :: rest, key => if k = key then some v else lookupA rest key

/-- A record: a JavaScript object mapping field names to values. -/
abbrev Rec := List (String × Value)

/-- Property read `record[field]`: `undefined` when the key is absent. -/
def recGet (r : Rec) (field : String) : Value :=
  (lookupA r field).getD .undefined

/-- Property write `record[field] = v`: updates in place if the key
exists (JavaScript keeps the original insertion position), else appends. -/
def setField (r : Rec) (field : String) (v : Value) : Rec :=
  match r with
  | [] => [(field, v)]
  | (k, w) :: rest =>
    if k = field then (k, v) :: rest else (k, w) :: setField rest field v

/-- `field in record`. -/
def recHas (r : Rec) (field : String) : Bool :=
  (lookupA r field).isSome

/-- The record's `_id` as a string (system field, always a string for
records built by the engine). -/
def idOf (r : Rec) : Value := recGet r "_id"

-- ===== Schema (src/types/schema.ts, fields used by the engine) =====

/-- `auto` attribute of a schema field. -/
inductive AutoKind where
  | uuid : AutoKind
  | timestamp : AutoKind

/-- A compiled schema field, with the attributes the database engine
reads (`name`, `auto`, `default`, `unique`, `immutable`, `indexed`). -/
structure FieldDefinition where
  name : String
  auto : Option AutoKind := none
  default : Option Value := none
  unique : Bool := false
  immutable : Bool := false
  indexed : Bool := false

/-- A compiled schema: the declared field list. -/
structure CompiledSchema where
  fields : List FieldDefinition

/-- Names of the unique-flagged fields, in declaration order. -/
def uniqueFields (schema : CompiledSchema) : List FieldDefinition :=
  schema.fields.filter (·.unique)

/-- Names of the immutable-flagged fields. -/
def immutableFields (schema : CompiledSchema) : List String :=
  (schema.fields.filter (·.immutable)).map (·.name)

-- ===== Collection private helpers (src/database/engine.ts) =====

/-- The `for (const field of this.schema.fields)` loop of
`Collection.buildRecord`: apply auto-generation, payload values and
declared defaults in schema order. -/
def buildFields (fields : List FieldDefinition) (data : Rec) (now : Int)
    (id : String) (record : Rec) : Rec :=
  match fields with
  | [] => record
  | field :: rest =>
    let record :=
      match field.auto with
      | some .uuid => setField record field.name (.str id)
      | some .timestamp => setField record field.name (.num now)
      | none =>
        if recHas data field.name then
          setField record field.name (recGet data field.name)
        else
          match field.default with
          | some d => setField record field.name d
          | none => record
    buildFields rest data now id record

/-- `Collection.buildRecord`: build a new record with system fields
(`_id`, `_created_at`, `_updated_at`, `_version = 1`) and the declared
fields' auto-values, payload values, or defaults. -/
def buildRecord (schema : CompiledSchema) (data : Rec) (now : Int)
    (id : String) : Rec :=
  buildFields schema.fields data now id
    [("_id", .str id), ("_created_at", .num now),
     ("_updated_at", .num now), ("_version", .num 1)]

/-- The merge loop of `Collection.applyUpdate`: copy each payload entry
over the existing record, skipping immutable fields and any key starting
with `_` (system fields are immutable). -/
def mergeUpdate (immutables : List String) (record : Rec) : Rec → Rec
  | [] => record
  | (key, value) :: rest =>
    if immutables.contains key then mergeUpdate immutables record rest
    else if strStartsWith key "_" then mergeUpdate immutables record rest
    else mergeUpdate immutables (setField record key value) rest

/-- The record's `_version` read as a number (`existing._version ?? 0`;
engine-built records always store a number here). -/
def versionOf (r : Rec) : Int :=
  match lookupA r "_version" with
  | some (.num n) => n
  | _ => 0

/-- The trailing loop of `Collection.applyUpdate`: refresh every
non-immutable auto-timestamp field to the new `_updated_at`. -/
def refreshAutoTimestamps (fields : List FieldDefinition) (now : Int)
    (record : Rec) : Rec :=
  match fields with
  | [] => record
  | field :: rest =>
    let record :=
      match field.auto with
      | some .timestamp =>
        if field.immutable then record else setField record field.name (.num now)
      | _ => record
    refreshAutoTimestamps rest now record

/-- `Collection.applyUpdate`: merge the payload respecting immutable and
system fields, refresh `_updated_at`, increment `_version`, and refresh
non-immutable auto-timestamp fields. -/
def applyUpdate (schema : CompiledSchema) (existing : Rec) (data : Rec)
    (now : Int) : Rec :=
  let updated := mergeUpdate (immutableFields schema) existing data
  let updated := setField updated "_updated_at" (.num now)
  let updated := setField updated "_version" (.num (versionOf existing + 1))
  refreshAutoTimestamps schema.fields now updated

/-- The field loop of `Collection.applySchemaEvolution`. -/
def evolveFields : List FieldDefinition → Rec → Rec
  | [], record => record
  | field :: rest, record =>
    let record :=
      if recHas record field.name then record
      else setField record field.name (field.default.getD .null)
    evolveFields rest record

/-- `Collection.applySchemaEvolution`: on read, synthesize every declared
field absent from the on-disk record as its default (or `null`).  (The
source never removes keys from the record.) -/
def applySchemaEvolution (schema : CompiledSchema) (record : Rec) : Rec :=
  evolveFields schema.fields record

/-- Does `r._id !== excludeId` fail, i.e. is `r` the excluded record?
(`excludeId` is `undefined` for creates.) -/
def isExcluded (excludeId : Option String) (r : Rec) : Bool :=
  match excludeId with
  | none => false
  | some e => strictEq (idOf r) (.str e)

/-- The inner conflict search of `Collection.enforceUniqueness`:
`allRecords.find(r => r[field] === value && r._id !== excludeId)`. -/
def findConflict (allRecords : List Rec) (field : String) (value : Value)
    (excludeId : Option String) : Option Rec :=
  allRecords.find? (fun r => strictEq (recGet r field) value && !isExcluded excludeId r)

/-- The per-unique-field loop of `Collection.enforceUniqueness`: skip
fields whose value is `undefined` or `null`, otherwise search for a
conflicting record. -/
def uniquenessScan (allRecords : List Rec) (record : Rec)
    (excludeId : Option String) : List FieldDefinition → Option (String × Value)
  | [] => none
  | field :: rest =>
    let value := recGet record field.name
    if strictEq value .undefined || strictEq value .null then
      uniquenessScan allRecords record excludeId rest
    else
      match findConflict allRecords field.name value excludeId with
      | some _ => some (field.name, value)
      | none => uniquenessScan allRecords record excludeId rest

/-- `Collection.enforceUniqueness`: for each unique-flagged field whose
value is neither `undefined` nor `null`, scan all records for another
record holding the same value; return the first offending
(field, value) pair, or `none` when every check passes.  (The source
throws `UniqueConstraintError(field, value)`.) -/
def enforceUniqueness (schema : CompiledSchema) (allRecords : List Rec)
    (record : Rec) (excludeId : Option String) : Option (String × Value) :=
  uniquenessScan allRecords record excludeId (uniqueFields schema)

-- ===== Index manager (src/database/index-manager.ts) =====

/-- One field's index: stringified field value → list of record ids. -/
abbrev FieldIdx := List (String × List String)

/-- One collection's indexes: field name → field index. -/
abbrev CollIndexes := List (String × FieldIdx)

/-- The `IndexManager`'s in-memory state: collection name → indexes. -/
abbrev IndexState := List (String × CollIndexes)

/-- `IndexManager.lookup`: `null` (here `none`) when the collection has
no index table or the field is not indexed; otherwise the id list stored
under `String(value)`, defaulting to the empty list. -/
def lookupIdx (ix : IndexState) (collection field : String) (value : Value) :
    Option (List String) :=
  match lookupA ix collection with
  | none => none
  | some collectionIndexes =>
    match lookupA collectionIndexes field with
    | none => none
    | some fieldIdx => some ((lookupA fieldIdx (toStringJS value)).getD [])

/-- Append an id under a key of a field index
(`fieldIndex.set(key, [...existing, id])`). -/
def fieldIdxAdd (fi : FieldIdx) (key id : String) : FieldIdx :=
  match lookupA fi key with
  | some existing => (setFieldA fi key (existing ++ [id]) : FieldIdx)
  | none => fi ++ [(key, [id])]
where
  /-- Replace the value stored under an existing key. -/
  setFieldA (fi : FieldIdx) (key : String) (ids : List String) : FieldIdx :=
    match fi with
    | [] => [(key, ids)]
    | (k, v) :: rest =>
      if k = key then (k, ids) :: rest else (k, v) :: setFieldA rest key ids

/-- `IndexManager.onRecordCreated` for one collection's index table: for
every indexed field with a non-null, non-undefined value on the record,
append the record's id under `String(value)`. -/
def onRecordCreated (collectionIndexes : CollIndexes) (record : Rec)
    (recordId : String) : CollIndexes :=
  collectionIndexes.map (fun (field, fieldIdx) =>
    match recGet record field with
    | .undefined => (field, fieldIdx)
    | .null => (field, fieldIdx)
    | v => (field, fieldIdxAdd fieldIdx (toStringJS v) recordId))

-- ===== Collection filtering (src/database/engine.ts) =====

/-- `record[field] === value` for one filter entry. -/
def filterMatches (r : Rec) (field : String) (value : Value) : Bool :=
  strictEq (recGet r field) value

/-- `Collection.linearFilter`: keep the records whose stored values are
strictly equal to every filter value. -/
def linearFilter (records : List Rec) (filters : List (String × Value)) :
    List Rec :=
  records.filter (fun record =>
    filters.all (fun (field, value) => filterMatches record field value))

/-- `idSet.has(r._id)` for the index-narrowing step. -/
def idSetHas (ids : List String) (r : Rec) : Bool :=
  ids.any (fun i => strictEq (.str i) (idOf r))

/-- `Collection.applyFilters`: use the first filter whose field is
indexed to narrow the candidate set via `IndexManager.lookup`, drop that
filter, and linear-filter the rest; with no indexed filter field, fall
back to the pure linear scan. -/
def applyFilters (ix : IndexState) (collection : String) (records : List Rec)
    (filters : List (String × Value)) : List Rec :=
  match filters.find? (fun p => (lookupIdx ix collection p.1 p.2).isSome) with
  | some (field, value) =>
    let ids := (lookupIdx ix collection field value).getD []
    let narrowed := records.filter (idSetHas ids)
    let remaining := filters.filter (fun p => p.1 != field)
    if remaining.isEmpty then narrowed else linearFilter narrowed remaining
  | none => linearFilter records filters

/-- `Collection.getAllRecords`: every on-disk record with lazy schema
evolution applied.  (File discovery and JSON parsing collapse to the
stored record list.) -/
def getAllRecords (schema : CompiledSchema) (records : List Rec) : List Rec :=
  records.map (applySchemaEvolution schema)

-- ===== Collection.create as a state transition =====

/-- One write-ahead-log entry (`wal.log(op, collection, id, pre, post)`). -/
structure WalEntry where
  operation : String
  collection : String
  recordId : String
  previousState : Option Rec
  newState : Option Rec

/-- A collection's mutable state: its records on disk, its in-memory
index table, and the WAL entries appended so far. -/
structure CollState where
  records : List Rec
  indexes : CollIndexes
  wal : List WalEntry

/-- `Collection.create` (with the generated record id and clock reading
as explicit inputs): build the record, enforce uniqueness against
`getAllRecords()` — the stored records as read back through lazy schema
evolution, exactly what the source's `enforceUniqueness` scans — and
only on success append the WAL entry, write the record, and update the
indexes.  A uniqueness conflict is returned as `.error (field, value)`
with the state untouched. -/
def createRecord (schema : CompiledSchema) (name : String) (st : CollState)
    (data : Rec) (now : Int) (id : String) :
    Except (String × Value) Rec × CollState :=
  let record := buildRecord schema data now id
  match enforceUniqueness schema (getAllRecords schema st.records) record none with
  | some conflict => (.error conflict, st)
  | none =>
    (.ok record,
     { records := st.records ++ [record],
       indexes := onRecordCreated st.indexes record id,
       wal := st.wal ++ [⟨"create", name, id, none, some record⟩] })

-- ===== Database facade list (src/database/engine.ts) =====

/-- One collection as the facade sees it: its schema and stored records. -/
structure CollData where
  schema : CompiledSchema
  records : List Rec

/-- The `DatabaseEngine`'s state: collections by (pluralized) name plus
the shared `IndexManager` state. -/
structure DBState where
  collections : List (String × CollData)
  indexes : IndexState

/-- `DatabaseEngine.list` restricted to the shape the rule engine
requests (`{filters, limit}` with default offset `0` and no sorting):
`requireCollection` throws on an unknown name; otherwise load all
records, apply filters, and return the first `min(limit ?? 20, 100)`
records. -/
def listData (db : DBState) (collection : String)
    (filters : Option (List (String × Value))) (limit? : Option Nat) :
    Except String (List Rec) :=
  match lookupA db.collections collection with
  | none => .error ("Collection " ++ collection ++ " not found")
  | some cd =>
    let limit := min (limit?.getD 20) 100
    let records := getAllRecords cd.schema cd.records
    let records :=
      match filters with
      | some fs => applyFilters db.indexes collection records fs
      | none => records
    .ok (records.take limit)

-- ===== Rule engine (src/runtime/rule-engine.ts) =====

/-- A rule condition: `condition.type` together with its typed `config`
(the source threads an untyped config map; the discriminants and the
keys read per type are exactly these). -/
inductive RuleCondition where
  | roleIs (role : String)
  | roleIn (roles : List String)
  | isOwner (field : String)
  | fieldEquals (field : String) (value : Value)
  | fieldNotEquals (field : String) (value : Value)
  | fieldExists (field : String)
  | fieldUniqueIn (field : String) (collection : String)
      (scope : List (String × String))
  | notSelf (ownerField targetField : String)
  | rateLimit
  | custom

/-- A compiled rule (`description`, `appliesTo`, `conditions`,
`onFailure.code/message`). -/
structure CompiledRule where
  description : String
  appliesTo : List String
  conditions : List RuleCondition
  onFailureCode : String
  onFailureMessage : String

/-- A compiled rule set (`name`, `category`, `rules`). -/
structure CompiledRuleSet where
  name : String
  category : String
  rules : List CompiledRule

/-- The authenticated user of a rule/execution context. -/
structure UserInfo where
  id : String
  role : String

/-- The rule engine's evaluation context. -/
structure RuleContext where
  toolName : String
  input : Rec
  user : Option UserInfo
  targetRecord : Option Rec

/-- A rule violation as returned by the rule engine. -/
structure RuleViolation where
  code : String
  message : String
  ruleName : String
  ruleDescription : String

/-- JavaScript nullish coalescing `a ?? b` on values. -/
def coalesce (a b : Value) : Value :=
  match a with
  | .undefined => b
  | .null => b
  | v => v

/-- `context.user?.id` as a value (`undefined` when unauthenticated). -/
def userIdVal : Option UserInfo → Value
  | some u => .str u.id
  | none => .undefined

/-- `targetRecord?.[field]` as a value. -/
def targetGet (target : Option Rec) (field : String) : Value :=
  match target with
  | some t => recGet t field
  | none => .undefined

/-- `evaluateCondition`: one condition against the context; the
`field_unique_in` case queries the database and therefore can fail with
the database's unknown-collection error. -/
def evaluateCondition (cond : RuleCondition) (ctx : RuleContext)
    (db : DBState) : Except String Bool :=
  match cond with
  | .roleIs role =>
    .ok (match ctx.user with
      | some u => u.role == role
      | none => false)
  | .roleIn roles =>
    .ok (match ctx.user with
      | some u => roles.contains u.role
      | none => false)
  | .isOwner field =>
    .ok (match ctx.user with
      | none => false
      | some u =>
        match ctx.targetRecord with
        | some target => strictEq (recGet target field) (.str u.id)
        | none => strictEq (recGet ctx.input field) (.str u.id))
  | .fieldEquals field value =>
    let actual := coalesce (recGet ctx.input field) (targetGet ctx.targetRecord field)
    .ok (strictEq actual value)
  | .fieldNotEquals field value =>
    let actual := coalesce (recGet ctx.input field) (targetGet ctx.targetRecord field)
    .ok (!strictEq actual value)
  | .fieldExists field =>
    .ok (match recGet ctx.input field with
      | .undefined => false
      | .null => false
      | _ => true)
  | .fieldUniqueIn field collection scope =>
    let value := recGet ctx.input field
    if !truthy value then .ok true
    else
      let filters := scope.foldl
        (fun fs (p : String × String) =>
          setField fs p.1 (coalesce (recGet ctx.input p.2) (userIdVal ctx.user)))
        [(field, value)]
      match listData db collection (some filters) (some 1) with
      | .error e => .error e
      | .ok result => .ok (result.length == 0)
  | .notSelf ownerField targetField =>
    let owner := coalesce (recGet ctx.input ownerField) (userIdVal ctx.user)
    let target := coalesce (recGet ctx.input targetField)
      (targetGet ctx.targetRecord targetField)
    .ok (!strictEq owner target)
  | .rateLimit => .ok true
  | .custom => .ok true

/-- The violation reported when a rule fails. -/
def mkViolation (rule : CompiledRule) (ruleSetName : String) : RuleViolation :=
  ⟨rule.onFailureCode, rule.onFailureMessage, ruleSetName, rule.description⟩

/-- The condition loop of `evaluateRule`. -/
def evalConditions (rule : CompiledRule) (ruleSetName : String)
    (ctx : RuleContext) (db : DBState) :
    List RuleCondition → Except String (Option RuleViolation)
  | [] => .ok none
  | c :: rest =>
    match evaluateCondition c ctx db with
    | .error e => .error e
    | .ok passes =>
      if passes then evalConditions rule ruleSetName ctx db rest
      else .ok (some (mkViolation rule ruleSetName))

/-- `evaluateRule`: ALL conditions must pass; the first failing condition
yields the rule's declared failure code and message. -/
def evaluateRule (rule : CompiledRule) (ruleSetName : String)
    (ctx : RuleContext) (db : DBState) : Except String (Option RuleViolation) :=
  evalConditions rule ruleSetName ctx db rule.conditions

/-- `ruleApplies`: wildcard, exact tool-name match, or prefix-wildcard
match. -/
def ruleApplies (rule : CompiledRule) (toolName : String) : Bool :=
  if rule.appliesTo.contains "*" then true
  else rule.appliesTo.any (fun pat =>
    if pat == toolName then true
    else if strEndsWith pat "*" then strStartsWith toolName (dropRightN pat 1)
    else false)

/-- `CATEGORY_PRIORITY.indexOf(category)` with `-1` mapped to `99`. -/
def categoryIdx : String → Nat
  | "permissions" => 0
  | "validation" => 1
  | "rate-limits" => 2
  | "custom" => 3
  | _ => 99

/-- The sort of rule sets by category priority.  `Array.prototype.sort`
with a comparator that depends only on `categoryIdx` is stable, hence
equal to concatenating the priority groups in their original order. -/
def sortedRuleSets (ruleSets : List CompiledRuleSet) : List CompiledRuleSet :=
  ruleSets.filter (fun rs => categoryIdx rs.category == 0) ++
  ruleSets.filter (fun rs => categoryIdx rs.category == 1) ++
  ruleSets.filter (fun rs => categoryIdx rs.category == 2) ++
  ruleSets.filter (fun rs => categoryIdx rs.category == 3) ++
  ruleSets.filter (fun rs => categoryIdx rs.category == 99)

/-- The inner rule loop of `evaluateRules` over one rule set's rules. -/
def evalRulesList (name : String) (ctx : RuleContext) (db : DBState) :
    List CompiledRule → Except String (Option RuleViolation)
  | [] => .ok none
  | rule :: rest =>
    if !ruleApplies rule ctx.toolName then evalRulesList name ctx db rest
    else
      match evaluateRule rule name ctx db with
      | .error e => .error e
      | .ok (some v) => .ok (some v)
      | .ok none => evalRulesList name ctx db rest

/-- The outer rule-set loop of `evaluateRules`. -/
def evalRuleSetsList (ctx : RuleContext) (db : DBState) :
    List CompiledRuleSet → Except String (Option RuleViolation)
  | [] => .ok none
  | rs :: rest =>
    match evalRulesList rs.name ctx db rs.rules with
    | .error e => .error e
    | .ok (some v) => .ok (some v)
    | .ok none => evalRuleSetsList ctx db rest

/-- `evaluateRules`: walk the sorted rule sets and their rules in order,
skipping inapplicable rules, and return the first violation (or `none`);
a condition's database error propagates. -/
def evaluateRules (ruleSets : List CompiledRuleSet) (ctx : RuleContext)
    (db : DBState) : Except String (Option RuleViolation) :=
  evalRuleSetsList ctx db (sortedRuleSets ruleSets)

-- ===== Action executor value resolution (src/runtime/action-executor.ts) =====

/-- The action executor's shared context `{input, vars, user}`. -/
structure ExecutionContext where
  input : Rec
  vars : Rec
  user : Option UserInfo

/-- The `context.`-path walk of `resolveValue`: index into the current
value while it is a (truthy) object, else yield `undefined`. -/
def getPath (v : Value) (parts : List String) : Value :=
  match parts with
  | [] => v
  | part :: rest =>
    match v with
    | .obj fields => getPath (recGet fields part) rest
    | _ => .undefined

/-- `user.id` / `user.role` property access on the typed user object. -/
def userGet (u : UserInfo) (field : String) : Value :=
  if field = "id" then .str u.id
  else if field = "role" then .str u.role
  else .undefined

/-- The digit-string value of a list of decimal digits. -/
def digitsToNat (l : List Char) : Nat :=
  l.foldl (fun acc c => acc * 10 + (c.toNat - '0'.toNat)) 0

/-- The integer fragment of JavaScript `Number(str)` combined with the
`!isNaN(num) && str.trim() !== ""` guard: an optional minus sign
followed by one or more decimal digits.  (JavaScript also accepts
floats, exponents, hex and surrounding whitespace; compiled plans only
use integer literals and no claim depends on the wider grammar.) -/
def parseNumeric (s : String) : Option Int :=
  match s.toList with
  | [] => none
  | '-' :: rest =>
    if rest ≠ [] ∧ rest.all (·.isDigit) then some (-(digitsToNat rest : Int))
    else none
  | l =>
    if l.all (·.isDigit) then some (digitsToNat l : Int) else none

/-- `resolveValue`: the uniform value resolver for step configuration.
Non-string sources are returned as-is (object/array sources are excluded
by the TypeScript signature); strings are resolved through the closed
prefix set `input.`, `context.`, `user.`, then the literal tokens
`true`/`false`/`null`, then numerics, and finally fall back to the bare
string itself. -/
def resolveValue (source : Value) (context : ExecutionContext) : Value :=
  match source with
  | .null => .null
  | .undefined => .undefined
  | .num n => .num n
  | .bool b => .bool b
  | .obj o => .obj o
  | .str s =>
    if strStartsWith s "input." then
      recGet context.input (sliceFrom s 6)
    else if strStartsWith s "context." then
      getPath (.obj context.vars) (splitOnDot (sliceFrom s 8))
    else if strStartsWith s "user." then
      match context.user with
      | none => .undefined
      | some u => userGet u (sliceFrom s 5)
    else if s = "true" then .bool true
    else if s = "false" then .bool false
    else if s = "null" then .null
    else
      match parseNumeric s with
      | some n => .num n
      | none => .str s

-- ===== Workflow saga executor (workflow-executor source) =====

/-- A compensation's `forStep`: a step index or the `"*"` catch-all. -/
inductive ForStep where
  | idx (n : Nat)
  | wildcard

/-- A declared compensation entry (`{forStep, action}`). -/
structure WorkflowCompensation where
  forStep : ForStep
  action : String

/-- Status of one executed workflow step. -/
inductive StepStatus where
  | completed
  | failed
  | skipped

/-- One entry of the `stepResults` map. -/
structure StepResult where
  index : Nat
  status : StepStatus
  data : Option Value := none
  error : Option String := none

/-- Outcome of one compensation run. -/
structure CompensationResult where
  forStep : ForStep
  success : Bool
  action : String
  error : Option String := none

/-- The result of `executeWorkflow`. -/
structure WorkflowResult where
  success : Bool
  stepResults : List StepResult
  error : Option (Nat × String) := none
  compensationResults : Option (List CompensationResult) := none

/-- `c.forStep === failedStep || c.forStep === "*"`. -/
def compApplies (failedStep : Nat) (c : WorkflowCompensation) : Bool :=
  match c.forStep with
  | .idx n => n == failedStep
  | .wildcard => true

/-- `runCompensations`: filter the declared compensations to those for
the failed step's index or the catch-all, and run each independently.
At this scope running a compensation merely logs its natural-language
action, which cannot fail, so every result is reported successful. -/
def runCompensations (compensations : List WorkflowCompensation)
    (failedStep : Nat) : List CompensationResult :=
  (compensations.filter (compApplies failedStep)).map
    (fun c => ⟨c.forStep, true, c.action, none⟩)

/-- The step loop of `executeWorkflow`, generic in the step type `σ`.
`stepExec` stands for `executeWorkflowStep` applied to the injected
database and LLM dependencies: it maps a step and the current context to
a result value or a thrown error message.  The loop records each step's
outcome, stores successful results in the context under `step<index>`,
and on the first failure stops, runs the applicable compensations, and
reports them next to the original failure. -/
def executeSteps {σ : Type} (stepIndex : σ → Nat)
    (stepExec : σ → Rec → Except String Value)
    (compensations : List WorkflowCompensation) :
    List σ → Rec → List StepResult → WorkflowResult
  | [], _, acc => { success := true, stepResults := acc }
  | step :: rest, ctx, acc =>
    match stepExec step ctx with
    | .ok result =>
      executeSteps stepIndex stepExec compensations rest
        (setField ctx ("step" ++ toString (stepIndex step)) result)
        (acc ++ [{ index := stepIndex step, status := .completed,
                   data := some result }])
    | .error msg =>
      { success := false,
        stepResults := acc ++ [{ index := stepIndex step, status := .failed,
                                 error := some msg }],
        error := some (stepIndex step, msg),
        compensationResults :=
          some (runCompensations compensations (stepIndex step)) }

/-- Entry point: run the steps against the initial context `{input}`. -/
def executeWorkflow {σ : Type} (stepIndex : σ → Nat)
    (stepExec : σ → Rec → Except String Value) (steps : List σ)
    (compensations : List WorkflowCompensation) (ctx : Rec) :
    WorkflowResult :=
  executeSteps stepIndex stepExec compensations steps ctx []

-- ===== Derived spec-side predicates used in theorem statements =====

/-- Is a schema field an auto-timestamp field? -/
def isAutoTsField (f : FieldDefinition) : Bool :=
  match f.auto with
  | some .timestamp => true
  | _ => false

/-- `_updated_at` read as a number (engine-built records always store a
number there under the integer-clock abstraction). -/
def updatedAtOf (r : Rec) : Int :=
  match lookupA r "_updated_at" with
  | some (.num n) => n
  | _ => 0

/-- One read-modify-write update round of `Collection.update`: the
record is read back through lazy schema evolution and then updated with
the payload at the given clock reading. -/
def updateStep (schema : CompiledSchema) (r : Rec) (u : Rec × Int) : Rec :=
  applyUpdate schema (applySchemaEvolution schema r) u.1 u.2

/-- Does the built record collide with an existing record on some
unique-flagged field (the predicate `Collection.create` turns into a
`unique_violation`)?  `records` is the record list the source scans:
`getAllRecords()`, i.e. the stored records seen through lazy schema
evolution. -/
def hasUniqueConflict (schema : CompiledSchema) (records : List Rec)
    (record : Rec) (excludeId : Option String) : Bool :=
  (uniqueFields schema).any (fun fd =>
    let value := recGet record fd.name
    if strictEq value .undefined || strictEq value .null then false
    else (findConflict records fd.name value excludeId).isSome)

/-- The field names indexed for a collection, read off the index state. -/
def indexedFieldNames (ix : IndexState) (collection : String) : List String :=
  ((lookupA ix collection).getD []).map Prod.fst

/-- Does evaluating this condition stay inside the database (`true`
unless it is a `field_unique_in` naming an unknown collection)? -/
def condDbSafeB (db : DBState) : RuleCondition → Bool
  | .fieldUniqueIn _ collection _ => (lookupA db.collections collection).isSome
  | _ => true

/-- Does a condition evaluate to a clean failure (`.ok false`)? -/
def condFailsB (ctx : RuleContext) (db : DBState) (c : RuleCondition) : Bool :=
  match evaluateCondition c ctx db with
  | .ok false => true
  | _ => false

/-- Is a rule violated in this context (some condition cleanly fails)? -/
def ruleViolated (ctx : RuleContext) (db : DBState) (rule : CompiledRule) :
    Bool :=
  rule.conditions.any (condFailsB ctx db)

/-- The first applicable violated rule in category-priority order,
together with its rule set's name. -/
def firstViolatedRule (ruleSets : List CompiledRuleSet) (ctx : RuleContext)
    (db : DBState) : Option (String × CompiledRule) :=
  ((sortedRuleSets ruleSets).flatMap
      (fun rs => rs.rules.map (fun r => (rs.name, r)))).find?
    (fun p => ruleApplies p.2 ctx.toolName && ruleViolated ctx db p.2)

-- ===== Association-list lemmas =====

theorem lookupA_setField_self (r : Rec) (k : String) (v : Value) :
    lookupA (setField r k v) k = some v := by
  induction r with
  | nil => simp [setField, lookupA]
  | cons p rest ih =>
    obtain ⟨k0, w⟩ := p
    by_cases h : k0 = k <;> simp [setField, lookupA, h, ih]

theorem lookupA_setField_ne (r : Rec) (k k' : String) (v : Value)
    (h : k ≠ k') : lookupA (setField r k v) k' = lookupA r k' := by
  induction r with
  | nil => simp [setField, lookupA, h]
  | cons p rest ih =>
    obtain ⟨k0, w⟩ := p
    by_cases h0 : k0 = k
    · subst h0
      simp [setField, lookupA, h]
    · simp [setField, lookupA, h0, ih]

theorem recGet_setField_self (r : Rec) (k : String) (v : Value) :
    recGet (setField r k v) k = v := by
  simp [recGet, lookupA_setField_self]

theorem recGet_setField_ne (r : Rec) (k k' : String) (v : Value)
    (h : k ≠ k') : recGet (setField r k v) k' = recGet r k' := by
  simp [recGet, lookupA_setField_ne _ _ _ _ h]

theorem lookupA_eq_none_iff {β : Type} (l : List (String × β)) (k : String) :
    lookupA l k = none ↔ k ∉ l.map Prod.fst := by
  induction l with
  | nil => simp [lookupA]
  | cons p rest ih =>
    obtain ⟨k0, w⟩ := p
    by_cases h : k0 = k
    · subst h; simp [lookupA]
    · have h' : ¬k = k0 := fun e => h e.symm
      simp only [lookupA, if_neg h, List.map_cons, List.mem_cons, ih]
      tauto

-- ===== Preservation lemmas for the record-building loops =====

theorem lookupA_buildFields_of_not_mem (data : Rec) (now : Int) (id : String)
    (k : String) :
    ∀ (fields : List FieldDefinition) (record : Rec),
      (∀ f ∈ fields, f.name ≠ k) →
      lookupA (buildFields fields data now id record) k = lookupA record k := by
  intro fields
  induction fields with
  | nil => intro record _; simp [buildFields]
  | cons f rest ih =>
    intro record h
    have hf : f.name ≠ k := h f (by simp)
    have hrest : ∀ g ∈ rest, g.name ≠ k :=
      fun g hg => h g (List.mem_cons_of_mem _ hg)
    simp only [buildFields]
    rw [ih _ hrest]
    cases f.auto with
    | some a => cases a <;> simp [lookupA_setField_ne _ _ _ _ hf]
    | none =>
      by_cases hd : recHas data f.name = true
      · simp [hd, lookupA_setField_ne _ _ _ _ hf]
      · cases f.default <;> simp [hd, lookupA_setField_ne _ _ _ _ hf]

theorem lookupA_mergeUpdate_of_underscore (imm : List String) (k : String)
    (hk : strStartsWith k "_" = true) :
    ∀ (data : List (String × Value)) (record : Rec),
      lookupA (mergeUpdate imm record data) k = lookupA record k := by
  intro data
  induction data with
  | nil => intro record; simp [mergeUpdate]
  | cons p rest ih =>
    intro record
    obtain ⟨key, value⟩ := p
    simp only [mergeUpdate]
    by_cases h1 : key ∈ imm
    · simp [h1, ih]
    · by_cases h2 : strStartsWith key "_" = true
      · simp [h1, h2, ih]
      · have hne : key ≠ k := by
          intro e; rw [e] at h2; exact h2 hk
        simp [h1, h2, ih, lookupA_setField_ne _ _ _ _ hne]

theorem lookupA_mergeUpdate_of_not_mem (imm : List String) (k : String) :
    ∀ (data : List (String × Value)) (record : Rec),
      (∀ p ∈ data, p.1 ≠ k) →
      lookupA (mergeUpdate imm record data) k = lookupA record k := by
  intro data
  induction data with
  | nil => intro record _; simp [mergeUpdate]
  | cons p rest ih =>
    intro record h
    obtain ⟨key, value⟩ := p
    have hne : key ≠ k := h (key, value) (by simp)
    have hrest : ∀ p ∈ rest, p.1 ≠ k :=
      fun p hp => h p (List.mem_cons_of_mem _ hp)
    simp only [mergeUpdate]
    by_cases h1 : key ∈ imm
    · simp [h1, ih _ hrest]
    · by_cases h2 : strStartsWith key "_" = true
      · simp [h1, h2, ih _ hrest]
      · simp [h1, h2, ih _ hrest, lookupA_setField_ne _ _ _ _ hne]

theorem lookupA_mergeUpdate_found (imm : List String) (k : String) (v : Value)
    (himm : k ∉ imm) (hu : strStartsWith k "_" = false) :
    ∀ (data : List (String × Value)) (record : Rec),
      lookupA data k = some v → (data.map Prod.fst).Nodup →
      lookupA (mergeUpdate imm record data) k = some v := by
  intro data
  induction data with
  | nil => intro record h _; simp [lookupA] at h
  | cons p rest ih =>
    intro record h hnodup
    obtain ⟨key, value⟩ := p
    simp only [List.map_cons, List.nodup_cons] at hnodup
    by_cases hkey : key = k
    · subst hkey
      simp only [lookupA, if_pos rfl] at h
      obtain rfl : value = v := by injection h
      have hrest : ∀ p ∈ rest, p.1 ≠ key := by
        intro p hp e
        exact hnodup.1 (e ▸ List.mem_map_of_mem Prod.fst hp)
      have hu' : ¬(strStartsWith key "_" = true) := by simp [hu]
      have hstep : mergeUpdate imm record ((key, value) :: rest) =
          mergeUpdate imm (setField record key value) rest := by
        simp [mergeUpdate, himm, hu']
      rw [hstep, lookupA_mergeUpdate_of_not_mem imm key rest _ hrest]
      exact lookupA_setField_self _ _ _
    · simp only [lookupA, if_neg hkey] at h
      simp only [mergeUpdate]
      by_cases h1 : key ∈ imm
      · simp [h1, ih _ h hnodup.2]
      · by_cases h2 : strStartsWith key "_" = true
        · simp [h1, h2, ih _ h hnodup.2]
        · simp [h1, h2, ih _ h hnodup.2]

theorem lookupA_refreshAutoTimestamps (now : Int) (k : String) :
    ∀ (fields : List FieldDefinition) (record : Rec),
      lookupA (refreshAutoTimestamps fields now record) k =
        if fields.any (fun f => f.name == k && isAutoTsField f && !f.immutable)
        then some (.num now) else lookupA record k := by
  intro fields
  induction fields with
  | nil => intro record; simp [refreshAutoTimestamps]
  | cons f rest ih =>
    intro record
    simp only [refreshAutoTimestamps, List.any_cons]
    cases hauto : f.auto with
    | none => simp [ih, isAutoTsField, hauto]
    | some a =>
      cases a with
      | uuid => simp [ih, isAutoTsField, hauto]
      | timestamp =>
        by_cases himm : f.immutable = true
        · simp [ih, isAutoTsField, hauto, himm]
        · have himm' : f.immutable = false := by simpa using himm
          by_cases hname : f.name = k
          · simp [ih, isAutoTsField, hauto, himm', hname,
              lookupA_setField_self]
          · have hbeq : (f.name == k) = false := by
              simp [hname]
            simp [ih, isAutoTsField, hauto, himm', hbeq,
              lookupA_setField_ne _ _ _ _ hname]

theorem lookupA_evolveFields_of_not_mem (k : String) :
    ∀ (fields : List FieldDefinition) (record : Rec),
      (∀ f ∈ fields, f.name ≠ k) →
      lookupA (evolveFields fields record) k = lookupA record k := by
  intro fields
  induction fields with
  | nil => intro record _; simp [evolveFields]
  | cons f rest ih =>
    intro record h
    have hf : f.name ≠ k := h f (by simp)
    have hrest : ∀ g ∈ rest, g.name ≠ k :=
      fun g hg => h g (List.mem_cons_of_mem _ hg)
    simp only [evolveFields]
    rw [ih _ hrest]
    by_cases hd : recHas record f.name = true
    · simp [hd]
    · simp [hd, lookupA_setField_ne _ _ _ _ hf]

-- ===== System-field lemmas for create and update =====

theorem name_ne_of_not_underscore {f : FieldDefinition}
    (h : strStartsWith f.name "_" = false) (k : String)
    (hk : strStartsWith k "_" = true) : f.name ≠ k := by
  intro e
  rw [e, hk] at h
  exact Bool.noConfusion h

theorem no_underscore_any_eq_false (schema : CompiledSchema) (k : String)
    (h : ∀ f ∈ schema.fields, strStartsWith f.name "_" = false)
    (hk : strStartsWith k "_" = true) :
    (schema.fields.any fun f => f.name == k && isAutoTsField f && !f.immutable)
      = false := by
  simp only [List.any_eq_false]
  intro f hf
  have := name_ne_of_not_underscore (h f hf) k hk
  simp [this]

theorem lookupA_buildRecord_version (schema : CompiledSchema) (data : Rec)
    (now : Int) (id : String)
    (h : ∀ f ∈ schema.fields, strStartsWith f.name "_" = false) :
    lookupA (buildRecord schema data now id) "_version" = some (.num 1) := by
  unfold buildRecord
  rw [lookupA_buildFields_of_not_mem _ _ _ _ _ _
    (fun f hf => name_ne_of_not_underscore (h f hf) _ (by decide))]
  simp [lookupA]

theorem lookupA_buildRecord_updatedAt (schema : CompiledSchema) (data : Rec)
    (now : Int) (id : String)
    (h : ∀ f ∈ schema.fields, strStartsWith f.name "_" = false) :
    lookupA (buildRecord schema data now id) "_updated_at" = some (.num now) := by
  unfold buildRecord
  rw [lookupA_buildFields_of_not_mem _ _ _ _ _ _
    (fun f hf => name_ne_of_not_underscore (h f hf) _ (by decide))]
  simp [lookupA]

theorem lookupA_applyUpdate_version (schema : CompiledSchema) (existing : Rec)
    (data : Rec) (now : Int)
    (h : ∀ f ∈ schema.fields, strStartsWith f.name "_" = false) :
    lookupA (applyUpdate schema existing data now) "_version" =
      some (.num (versionOf existing + 1)) := by
  unfold applyUpdate
  rw [lookupA_refreshAutoTimestamps,
    no_underscore_any_eq_false schema _ h (by decide)]
  simp [lookupA_setField_self]

theorem lookupA_applyUpdate_updatedAt (schema : CompiledSchema) (existing : Rec)
    (data : Rec) (now : Int)
    (h : ∀ f ∈ schema.fields, strStartsWith f.name "_" = false) :
    lookupA (applyUpdate schema existing data now) "_updated_at" =
      some (.num now) := by
  unfold applyUpdate
  rw [lookupA_refreshAutoTimestamps,
    no_underscore_any_eq_false schema _ h (by decide)]
  simp only [Bool.false_eq_true, if_false]
  rw [lookupA_setField_ne _ _ _ _ (by decide)]
  exact lookupA_setField_self _ _ _

theorem versionOf_applySchemaEvolution (schema : CompiledSchema) (r : Rec)
    (h : ∀ f ∈ schema.fields, strStartsWith f.name "_" = false) :
    versionOf (applySchemaEvolution schema r) = versionOf r := by
  unfold versionOf applySchemaEvolution
  rw [lookupA_evolveFields_of_not_mem _ _ _
    (fun f hf => name_ne_of_not_underscore (h f hf) _ (by decide))]

theorem updatedAtOf_applySchemaEvolution (schema : CompiledSchema) (r : Rec)
    (h : ∀ f ∈ schema.fields, strStartsWith f.name "_" = false) :
    updatedAtOf (applySchemaEvolution schema r) = updatedAtOf r := by
  unfold updatedAtOf applySchemaEvolution
  rw [lookupA_evolveFields_of_not_mem _ _ _
    (fun f hf => name_ne_of_not_underscore (h f hf) _ (by decide))]

theorem versionOf_updateStep (schema : CompiledSchema) (r : Rec) (u : Rec × Int)
    (h : ∀ f ∈ schema.fields, strStartsWith f.name "_" = false) :
    versionOf (updateStep schema r u) = versionOf r + 1 := by
  unfold updateStep
  have hv := lookupA_applyUpdate_version schema (applySchemaEvolution schema r)
    u.1 u.2 h
  rw [versionOf_applySchemaEvolution schema r h] at hv
  unfold versionOf
  rw [hv]
  rfl

theorem updatedAtOf_updateStep (schema : CompiledSchema) (r : Rec)
    (u : Rec × Int)
    (h : ∀ f ∈ schema.fields, strStartsWith f.name "_" = false) :
    updatedAtOf (updateStep schema r u) = u.2 := by
  unfold updateStep
  have hv := lookupA_applyUpdate_updatedAt schema (applySchemaEvolution schema r)
    u.1 u.2 h
  unfold updatedAtOf
  rw [hv]

theorem versionOf_foldl_updateStep (schema : CompiledSchema)
    (h : ∀ f ∈ schema.fields, strStartsWith f.name "_" = false) :
    ∀ (ups : List (Rec × Int)) (r : Rec),
      versionOf (ups.foldl (updateStep schema) r) = versionOf r + ups.length := by
  intro ups
  induction ups with
  | nil => intro r; simp
  | cons u rest ih =>
    intro r
    simp only [List.foldl_cons, List.length_cons]
    rw [ih, versionOf_updateStep schema r u h]
    omega

theorem map_updatedAtOf_scanl (schema : CompiledSchema)
    (h : ∀ f ∈ schema.fields, strStartsWith f.name "_" = false) :
    ∀ (ups : List (Rec × Int)) (r : Rec),
      (ups.scanl (updateStep schema) r).map updatedAtOf =
        updatedAtOf r :: ups.map Prod.snd := by
  intro ups
  induction ups with
  | nil => intro r; simp
  | cons u rest ih =>
    intro r
    simp only [List.scanl_cons, List.map_cons, List.map, ih,
      updatedAtOf_updateStep schema r u h]

/-- C1: a record built by `Collection.create` has `_version = 1`; after a
sequence of `N` successful read-modify-write updates its `_version` is
`N + 1`; and under a non-decreasing clock the `_updated_at` values along
the update sequence are monotonically non-decreasing.  (The hypothesis
that declared field names do not start with `_` reflects the system-field
namespace convention; the clock hypothesis reflects that
`new Date().toISOString()` is non-decreasing in real time.) -/
theorem create_version_one_and_updates_monotone
    (schema : CompiledSchema) (data : Rec) (now0 : Int) (id : String)
    (ups : List (Rec × Int))
    (hnames : ∀ f ∈ schema.fields, strStartsWith f.name "_" = false)
    (hmono : List.Chain (· ≤ ·) now0 (ups.map Prod.snd)) :
    versionOf (buildRecord schema data now0 id) = 1 ∧
    versionOf (ups.foldl (updateStep schema) (buildRecord schema data now0 id))
      = 1 + ups.length ∧
    List.Chain' (· ≤ ·)
      ((ups.scanl (updateStep schema) (buildRecord schema data now0 id)).map
        updatedAtOf) := by
  have hv1 : versionOf (buildRecord schema data now0 id) = 1 := by
    unfold versionOf
    rw [lookupA_buildRecord_version schema data now0 id hnames]
  have hu0 : updatedAtOf (buildRecord schema data now0 id) = now0 := by
    unfold updatedAtOf
    rw [lookupA_buildRecord_updatedAt schema data now0 id hnames]
  refine ⟨hv1, ?_, ?_⟩
  · rw [versionOf_foldl_updateStep schema hnames, hv1]
  · rw [map_updatedAtOf_scanl schema hnames, hu0]
    exact hmono

/-- Witness for C1 at a concrete schema, create payload and two updates. -/
theorem create_version_one_and_updates_monotone_witness :
    versionOf (buildRecord ⟨[⟨"title", none, none, false, false, false⟩]⟩
      [("title", .str "a")] 0 "id0") = 1 ∧
    versionOf ([([("title", Value.str "b")], (5 : Int)),
        ([("title", Value.str "c")], (7 : Int))].foldl
      (updateStep ⟨[⟨"title", none, none, false, false, false⟩]⟩)
      (buildRecord ⟨[⟨"title", none, none, false, false, false⟩]⟩
        [("title", .str "a")] 0 "id0"))
      = 1 + [([("title", Value.str "b")], (5 : Int)),
        ([("title", Value.str "c")], (7 : Int))].length ∧
    List.Chain' (· ≤ ·)
      (([([("title", Value.str "b")], (5 : Int)),
          ([("title", Value.str "c")], (7 : Int))].scanl
        (updateStep ⟨[⟨"title", none, none, false, false, false⟩]⟩)
        (buildRecord ⟨[⟨"title", none, none, false, false, false⟩]⟩
          [("title", .str "a")] 0 "id0")).map updatedAtOf) :=
  create_version_one_and_updates_monotone
    ⟨[⟨"title", none, none, false, false, false⟩]⟩ [("title", .str "a")] 0 "id0"
    [([("title", Value.str "b")], (5 : Int)), ([("title", Value.str "c")], (7 : Int))]
    (by decide) (by norm_num [List.chain_cons])

-- ===== Uniqueness-enforcement lemmas (C2, C10) =====

theorem uniquenessScan_sound (allRecords : List Rec) (record : Rec)
    (excl : Option String) :
    ∀ (fields : List FieldDefinition) (f : String) (v : Value),
      uniquenessScan allRecords record excl fields = some (f, v) →
      (∃ fd ∈ fields, fd.name = f) ∧ recGet record f = v ∧
      strictEq v .undefined = false ∧ strictEq v .null = false ∧
      ∃ r ∈ allRecords,
        strictEq (recGet r f) v = true ∧ isExcluded excl r = false := by
  intro fields
  induction fields with
  | nil => intro f v h; simp [uniquenessScan] at h
  | cons fd rest ih =>
    intro f v h
    simp only [uniquenessScan] at h
    by_cases hc : (strictEq (recGet record fd.name) .undefined ||
        strictEq (recGet record fd.name) .null) = true
    · rw [if_pos hc] at h
      obtain ⟨⟨fd', hfd', hname⟩, h2, h3, h4, h5⟩ := ih f v h
      exact ⟨⟨fd', List.mem_cons_of_mem _ hfd', hname⟩, h2, h3, h4, h5⟩
    · rw [if_neg hc] at h
      cases hfc : findConflict allRecords fd.name (recGet record fd.name) excl with
      | none =>
        rw [hfc] at h
        obtain ⟨⟨fd', hfd', hname⟩, h2, h3, h4, h5⟩ := ih f v h
        exact ⟨⟨fd', List.mem_cons_of_mem _ hfd', hname⟩, h2, h3, h4, h5⟩
      | some r =>
        rw [hfc] at h
        injection h with h'
        obtain ⟨rfl, rfl⟩ : fd.name = f ∧ recGet record fd.name = v := by
          cases h'; exact ⟨rfl, rfl⟩
        simp only [Bool.or_eq_true, not_or, Bool.not_eq_true] at hc
        have hp := List.find?_some hfc
        have hmem := List.mem_of_find?_eq_some hfc
        simp only [Bool.and_eq_true, Bool.not_eq_true'] at hp
        exact ⟨⟨fd, by simp, rfl⟩, rfl, hc.1, hc.2,
          r, hmem, hp.1, hp.2⟩

theorem uniquenessScan_isSome (allRecords : List Rec) (record : Rec)
    (excl : Option String) :
    ∀ (fields : List FieldDefinition),
      (fields.any (fun fd =>
        let value := recGet record fd.name
        if strictEq value .undefined || strictEq value .null then false
        else (findConflict allRecords fd.name value excl).isSome)) = true →
      (uniquenessScan allRecords record excl fields).isSome = true := by
  intro fields
  induction fields with
  | nil => intro h; simp at h
  | cons fd rest ih =>
    intro h
    rw [List.any_cons] at h
    rcases (Bool.or_eq_true _ _).mp h with h | h
    · simp only [] at h
      by_cases hc : (strictEq (recGet record fd.name) .undefined ||
          strictEq (recGet record fd.name) .null) = true
      · rw [if_pos hc] at h
        exact absurd h (by simp)
      · rw [if_neg hc] at h
        simp only [uniquenessScan]
        rw [if_neg hc]
        cases hfc : findConflict allRecords fd.name (recGet record fd.name) excl with
        | some r => simp
        | none => rw [hfc] at h; simp at h
    · simp only [uniquenessScan]
      by_cases hc : (strictEq (recGet record fd.name) .undefined ||
          strictEq (recGet record fd.name) .null) = true
      · rw [if_pos hc]
        exact ih h
      · rw [if_neg hc]
        cases hfc : findConflict allRecords fd.name (recGet record fd.name) excl with
        | some r => simp
        | none => exact ih h

/-- C10: uniqueness enforcement skips a unique-flagged field whose value
on the candidate record is `undefined` (absent) or `null`: no
`unique_violation` for that field can be raised, however many existing
records also hold `null` or lack the field. -/
theorem unique_field_null_never_violates (schema : CompiledSchema)
    (allRecords : List Rec) (record : Rec) (excl : Option String) (f : String)
    (h : recGet record f = .undefined ∨ recGet record f = .null) :
    ∀ e, enforceUniqueness schema allRecords record excl = some e →
      e.1 ≠ f := by
  unfold enforceUniqueness
  intro e
  suffices hs : ∀ fields,
      uniquenessScan allRecords record excl fields = some e → e.1 ≠ f from
    hs (uniqueFields schema)
  intro fields
  induction fields with
  | nil => intro he; simp [uniquenessScan] at he
  | cons fd rest ih =>
    intro he
    simp only [uniquenessScan] at he
    by_cases hc : (strictEq (recGet record fd.name) .undefined ||
        strictEq (recGet record fd.name) .null) = true
    · rw [if_pos hc] at he
      exact ih he
    · rw [if_neg hc] at he
      cases hfc : findConflict allRecords fd.name (recGet record fd.name) excl with
      | none =>
        rw [hfc] at he
        exact ih he
      | some r =>
        rw [hfc] at he
        injection he with he'
        intro hef
        apply hc
        have hname : fd.name = f := by
          have : (fd.name, recGet record fd.name).1 = f := he' ▸ hef
          exact this
        rw [hname]
        rcases h with h | h <;> simp [h, strictEq]

/-- Witness for C10: a conflict on another unique field is reported, and
by the theorem it cannot name the null-valued unique field `email`. -/
theorem unique_field_null_never_violates_witness :
    enforceUniqueness ⟨[⟨"email", none, none, true, false, false⟩,
        ⟨"handle", none, none, true, false, false⟩]⟩
      [[("_id", .str "a"), ("handle", .str "x")]]
      [("_id", .str "b"), ("email", .null), ("handle", .str "x")] none
      = some ("handle", .str "x") ∧
    ("handle" : String) ≠ "email" :=
  ⟨rfl,
    unique_field_null_never_violates
      ⟨[⟨"email", none, none, true, false, false⟩,
        ⟨"handle", none, none, true, false, false⟩]⟩
      [[("_id", .str "a"), ("handle", .str "x")]]
      [("_id", .str "b"), ("email", .null), ("handle", .str "x")] none
      "email" (Or.inr rfl) ("handle", .str "x") rfl⟩

/-- C2: a create whose built record collides on a unique-flagged field
with the schema-evolved view of an existing record (`getAllRecords()`,
the list the source's `enforceUniqueness` scans) returns a
`unique_violation` naming an offending unique field and its (non-null)
colliding value, and leaves the collection state — records, in-memory
indexes and WAL — exactly unchanged. -/
theorem create_conflict_rejected_without_write (schema : CompiledSchema)
    (name : String) (st : CollState) (data : Rec) (now : Int) (id : String)
    (h : hasUniqueConflict schema (getAllRecords schema st.records)
      (buildRecord schema data now id) none = true) :
    ∃ f v, createRecord schema name st data now id = (.error (f, v), st) ∧
      (∃ fd ∈ uniqueFields schema, fd.name = f) ∧
      recGet (buildRecord schema data now id) f = v ∧
      strictEq v .undefined = false ∧ strictEq v .null = false ∧
      ∃ r ∈ st.records,
        strictEq (recGet (applySchemaEvolution schema r) f) v = true := by
  unfold hasUniqueConflict at h
  have hsome := uniquenessScan_isSome (getAllRecords schema st.records)
    (buildRecord schema data now id) none (uniqueFields schema) h
  obtain ⟨⟨f, v⟩, he⟩ := Option.isSome_iff_exists.mp hsome
  obtain ⟨hmem, hval, hu1, hu2, r, hr, hs, _⟩ :=
    uniquenessScan_sound (getAllRecords schema st.records)
      (buildRecord schema data now id) none (uniqueFields schema) f v he
  obtain ⟨r0, hr0, rfl⟩ := List.mem_map.mp hr
  refine ⟨f, v, ?_, hmem, hval, hu1, hu2, r0, hr0, hs⟩
  simp only [createRecord, enforceUniqueness, he]

/-- Witness for C2, exercising the schema-evolved scan: the stored
record lacks the unique field `flag` on disk; evolution synthesizes its
default `"d"`, which collides with the built record's default. -/
theorem create_conflict_rejected_without_write_witness :
    ∃ f v, createRecord ⟨[⟨"flag", none, some (.str "d"), true, false, false⟩]⟩
        "users" ⟨[[("_id", .str "a1")]], [], []⟩ [] 3 "b"
      = (.error (f, v), ⟨[[("_id", .str "a1")]], [], []⟩) ∧
      (∃ fd ∈ uniqueFields
          ⟨[⟨"flag", none, some (.str "d"), true, false, false⟩]⟩,
        fd.name = f) ∧
      recGet (buildRecord ⟨[⟨"flag", none, some (.str "d"), true, false,
        false⟩]⟩ [] 3 "b") f = v ∧
      strictEq v .undefined = false ∧ strictEq v .null = false ∧
      ∃ r ∈ ([[("_id", .str "a1")]] : List Rec),
        strictEq (recGet (applySchemaEvolution
          ⟨[⟨"flag", none, some (.str "d"), true, false, false⟩]⟩ r) f) v
          = true :=
  create_conflict_rejected_without_write
    ⟨[⟨"flag", none, some (.str "d"), true, false, false⟩]⟩ "users"
    ⟨[[("_id", .str "a1")]], [], []⟩ [] 3 "b" rfl

-- ===== C3: schema evolution on read =====

/-- C3 (divergence evidence): `applySchemaEvolution` synthesizes missing
declared fields from their defaults, but an on-disk field that is no
longer declared in the schema (`legacy` below) is still present in the
record returned by `read` — the code never omits undeclared fields,
contradicting the claim (and the repository design document §4.6). -/
theorem read_keeps_undeclared_field :
    lookupA (applySchemaEvolution
        ⟨[⟨"title", none, none, false, false, false⟩,
          ⟨"done", none, some (.bool false), false, false, false⟩]⟩
        [("_id", .str "r1"), ("legacy", .str "x"), ("title", .str "t")])
      "legacy" = some (.str "x") ∧
    lookupA (applySchemaEvolution
        ⟨[⟨"title", none, none, false, false, false⟩,
          ⟨"done", none, some (.bool false), false, false, false⟩]⟩
        [("_id", .str "r1"), ("legacy", .str "x"), ("title", .str "t")])
      "done" = some (.bool false) :=
  ⟨rfl, rfl⟩

-- ===== C8: index lookup sentinel =====

/-- C8: `IndexManager.lookup` returns the not-indexed sentinel (`none`,
the source's `null`) exactly when the field is not indexed for the
collection; an indexed field always yields `some` list (possibly empty),
so "indexed with no matches" is distinguishable from "not indexed". -/
theorem lookup_none_iff_field_not_indexed (ix : IndexState)
    (c f : String) (v : Value) :
    lookupIdx ix c f v = none ↔ f ∉ indexedFieldNames ix c := by
  unfold lookupIdx indexedFieldNames
  rw [← lookupA_eq_none_iff]
  cases hc : lookupA ix c with
  | none => simp [lookupA]
  | some ci => cases hf : lookupA ci f <;> simp [hf]

-- ===== C9: create/update payload asymmetry =====

/-- The four system field names owned by the storage engine. -/
def systemFieldNames : List String :=
  ["_id", "_created_at", "_updated_at", "_version"]

/-- Is `k` a declared non-immutable auto-timestamp field (refreshed by
`applyUpdate` after the merge)? -/
def isRefreshedAutoTs (schema : CompiledSchema) (k : String) : Bool :=
  schema.fields.any (fun f => f.name == k && isAutoTsField f && !f.immutable)

theorem lookupA_buildRecord_id (schema : CompiledSchema) (data : Rec)
    (now : Int) (id : String)
    (h : ∀ f ∈ schema.fields, strStartsWith f.name "_" = false) :
    lookupA (buildRecord schema data now id) "_id" = some (.str id) := by
  unfold buildRecord
  rw [lookupA_buildFields_of_not_mem _ _ _ _ _ _
    (fun f hf => name_ne_of_not_underscore (h f hf) _ (by decide))]
  simp [lookupA]

/-- C9 (amended): `buildRecord` copies only declared fields, so every
undeclared payload key — in particular every undeclared `_`-prefixed
key — is silently dropped from the created record and the system fields
keep their engine-generated values; `applyUpdate` merges every payload
key that does not start with `_` and is not declared immutable,
including keys not declared in the schema, **except** that a declared
non-immutable auto-timestamp field is refreshed to the new update
timestamp after the merge, overriding the merged payload value. -/
theorem create_drops_undeclared_update_merges (schema : CompiledSchema)
    (data existing : Rec) (now now' : Int) (id : String) (k : String)
    (v : Value)
    (hnames : ∀ f ∈ schema.fields, strStartsWith f.name "_" = false) :
    ((∀ f ∈ schema.fields, f.name ≠ k) → k ∉ systemFieldNames →
      lookupA (buildRecord schema data now id) k = none) ∧
    (lookupA (buildRecord schema data now id) "_version" = some (.num 1) ∧
     lookupA (buildRecord schema data now id) "_id" = some (.str id)) ∧
    (lookupA data k = some v → (data.map Prod.fst).Nodup →
     strStartsWith k "_" = false → k ∉ immutableFields schema →
      lookupA (applyUpdate schema existing data now') k =
        (if isRefreshedAutoTs schema k then some (.num now') else some v)) := by
  refine ⟨?_, ⟨lookupA_buildRecord_version schema data now id hnames,
    lookupA_buildRecord_id schema data now id hnames⟩, ?_⟩
  · intro hnd hsys
    unfold buildRecord
    rw [lookupA_buildFields_of_not_mem _ _ _ _ _ _ hnd]
    simp only [systemFieldNames, List.mem_cons, List.not_mem_nil, or_false,
      not_or] at hsys
    obtain ⟨h1, h2, h3, h4⟩ := hsys
    have g1 : ¬("_id" = k) := fun e => h1 e.symm
    have g2 : ¬("_created_at" = k) := fun e => h2 e.symm
    have g3 : ¬("_updated_at" = k) := fun e => h3 e.symm
    have g4 : ¬("_version" = k) := fun e => h4 e.symm
    simp [lookupA, g1, g2, g3, g4]
  · intro hdata hnodup hk himm
    have hver : "_version" ≠ k := by
      intro e
      rw [← e] at hk
      exact absurd hk (by decide)
    have hupd : "_updated_at" ≠ k := by
      intro e
      rw [← e] at hk
      exact absurd hk (by decide)
    unfold applyUpdate isRefreshedAutoTs
    rw [lookupA_refreshAutoTimestamps]
    by_cases hr :
        (schema.fields.any fun f => f.name == k && isAutoTsField f && !f.immutable) = true
    · rw [if_pos hr, if_pos hr]
    · rw [if_neg hr, if_neg hr]
      rw [lookupA_setField_ne _ _ _ _ hver, lookupA_setField_ne _ _ _ _ hupd]
      exact lookupA_mergeUpdate_found (immutableFields schema) k v himm hk
        data existing hdata hnodup

/-- Counterexample for C9 as frozen: `updated_at` is a non-`_`,
non-immutable payload key, yet the stored record after the update holds
the refreshed timestamp, not the merged payload value `"evil"`. -/
theorem update_auto_timestamp_overrides_merge :
    strStartsWith "updated_at" "_" = false ∧
    "updated_at" ∉ immutableFields
      ⟨[⟨"updated_at", some .timestamp, none, false, false, false⟩]⟩ ∧
    lookupA [("updated_at", Value.str "evil")] "updated_at"
      = some (.str "evil") ∧
    lookupA (applyUpdate
        ⟨[⟨"updated_at", some .timestamp, none, false, false, false⟩]⟩
        [("_id", .str "r"), ("_version", .num 1), ("_updated_at", .num 0),
         ("updated_at", .num 0)]
        [("updated_at", .str "evil")] 5) "updated_at" = some (.num 5) ∧
    Value.num 5 ≠ Value.str "evil" :=
  ⟨rfl, by decide, rfl, rfl, by simp⟩

/-- Witness for C9 (amended) at a concrete schema: the undeclared create
key `priority` is dropped, and the undeclared update key `notes` is
merged verbatim. -/
theorem create_drops_undeclared_update_merges_witness :
    lookupA (buildRecord
        ⟨[⟨"title", none, none, false, false, false⟩,
          ⟨"updated_at", some .timestamp, none, false, false, false⟩]⟩
        [("priority", .str "high")] 0 "i") "priority" = none ∧
    lookupA (applyUpdate
        ⟨[⟨"title", none, none, false, false, false⟩,
          ⟨"updated_at", some .timestamp, none, false, false, false⟩]⟩
        [("_id", .str "r"), ("_version", .num 1), ("_updated_at", .num 0)]
        [("notes", .str "v")] 5) "notes" = some (.str "v") := by
  have h := create_drops_undeclared_update_merges
    ⟨[⟨"title", none, none, false, false, false⟩,
      ⟨"updated_at", some .timestamp, none, false, false, false⟩]⟩
    [("notes", .str "v")]
    [("_id", .str "r"), ("_version", .num 1), ("_updated_at", .num 0)]
    0 5 "i" "notes" (.str "v") (by decide)
  refine ⟨?_, ?_⟩
  · have h' := create_drops_undeclared_update_merges
      ⟨[⟨"title", none, none, false, false, false⟩,
        ⟨"updated_at", some .timestamp, none, false, false, false⟩]⟩
      [("priority", .str "high")]
      [("_id", .str "r"), ("_version", .num 1), ("_updated_at", .num 0)]
      0 5 "i" "priority" (.str "high") (by decide)
    exact h'.1 (by decide) (by decide)
  · have h3 := h.2.2 rfl (by decide) (by decide) (by decide)
    rw [h3]
    rfl

-- ===== C4: indexed filtering vs. linear scan =====

/-- Counterexample for C4 as frozen: indexes are keyed by `String(value)`
while the linear scan compares with `===`.  A record with numeric
`priority: 1` lands under index key `"1"` (first conjunct shows this
index state is produced by the index-maintenance code itself), so a
filter with the *string* value `"1"` returns the record through the
index-narrowed path but not through the pure linear scan. -/
theorem indexed_filter_differs_from_linear_scan :
    onRecordCreated [("priority", [])]
      [("_id", .str "a"), ("priority", .num 1)] "a"
      = [("priority", [("1", ["a"])])] ∧
    applyFilters [("tasks", [("priority", [("1", ["a"])])])] "tasks"
      [[("_id", .str "a"), ("priority", .num 1)]]
      [("priority", .str "1")]
      = [[("_id", .str "a"), ("priority", .num 1)]] ∧
    linearFilter [[("_id", .str "a"), ("priority", .num 1)]]
      [("priority", .str "1")] = [] :=
  ⟨rfl, rfl, rfl⟩

/-- C4 (amended): whenever the index's answer agrees record-by-record
with strict equality on each filtered field — in particular whenever the
filter values and the stored values of indexed fields are strings and
the index reflects the records — the index-narrowed filtering path
returns exactly the same record set as the pure linear exact-match scan.
(Filter keys are unique, as JavaScript object keys are.) -/
theorem applyFilters_eq_linearFilter_of_index_agrees (ix : IndexState)
    (c : String) (records : List Rec) (filters : List (String × Value))
    (hkeys : (filters.map Prod.fst).Nodup)
    (hagree : ∀ p ∈ filters, ∀ r ∈ records,
      lookupIdx ix c p.1 p.2 = none ∨
      idSetHas ((lookupIdx ix c p.1 p.2).getD []) r = filterMatches r p.1 p.2) :
    applyFilters ix c records filters = linearFilter records filters := by
  unfold applyFilters
  cases hfind : filters.find? (fun p => (lookupIdx ix c p.1 p.2).isSome) with
  | none => rfl
  | some p =>
    obtain ⟨f, v⟩ := p
    have hmem : (f, v) ∈ filters := List.mem_of_find?_eq_some hfind
    have hsome : (lookupIdx ix c f v).isSome = true := by
      simpa using List.find?_some hfind
    have hagr : ∀ r ∈ records,
        idSetHas ((lookupIdx ix c f v).getD []) r = filterMatches r f v := by
      intro r hr
      rcases hagree (f, v) hmem r hr with h | h
      · rw [h] at hsome
        simp at hsome
      · exact h
    have hnarrow : records.filter (idSetHas ((lookupIdx ix c f v).getD []))
        = records.filter (fun r => filterMatches r f v) :=
      List.filter_congr hagr
    obtain ⟨l1, l2, rfl⟩ := List.append_of_mem hmem
    have hnod := hkeys
    simp only [List.map_append, List.map_cons, List.nodup_append,
      List.nodup_cons] at hnod
    have hfl1 : f ∉ l1.map Prod.fst := by
      intro hin
      exact (hnod.2.2 hin) (List.mem_cons_self f _)
    have hfl2 : f ∉ l2.map Prod.fst := hnod.2.1.1
    have hf1 : ∀ p ∈ l1, p.1 ≠ f := by
      intro p hp e
      exact hfl1 (e ▸ List.mem_map_of_mem Prod.fst hp)
    have hf2 : ∀ p ∈ l2, p.1 ≠ f := by
      intro p hp e
      exact hfl2 (e ▸ List.mem_map_of_mem Prod.fst hp)
    have he1 : List.filter (fun p => p.1 != f) l1 = l1 :=
      List.filter_eq_self.mpr (fun a ha => by simpa using hf1 a ha)
    have he2 : List.filter (fun p => p.1 != f) l2 = l2 :=
      List.filter_eq_self.mpr (fun a ha => by simpa using hf2 a ha)
    have hrem : List.filter (fun p => p.1 != f) (l1 ++ (f, v) :: l2)
        = l1 ++ l2 := by
      rw [List.filter_append, List.filter_cons]
      simp [he1, he2]
    dsimp only
    rw [hrem, hnarrow]
    cases h12 : (l1 ++ l2).isEmpty with
    | true =>
      obtain ⟨rfl, rfl⟩ : l1 = [] ∧ l2 = [] := by
        simpa [List.append_eq_nil] using h12
      rw [if_pos rfl]
      unfold linearFilter
      apply List.filter_congr
      intro r hr
      simp
    | false =>
      rw [if_neg (by simp [h12])]
      unfold linearFilter
      rw [List.filter_filter]
      apply List.filter_congr
      intro r hr
      simp only [List.all_append, List.all_cons]
      simp [Bool.and_comm, Bool.and_left_comm, Bool.and_assoc]

/-- Witness for C4 (amended) at the spec's own example: three records
with `priority` high/low/high, `priority` indexed consistently; both
paths return exactly the two high records. -/
theorem applyFilters_eq_linearFilter_witness :
    applyFilters [("tasks", [("priority", [("high", ["a", "c"]),
        ("low", ["b"])])])] "tasks"
      [[("_id", .str "a"), ("priority", .str "high")],
       [("_id", .str "b"), ("priority", .str "low")],
       [("_id", .str "c"), ("priority", .str "high")]]
      [("priority", .str "high")]
      = linearFilter
        [[("_id", .str "a"), ("priority", .str "high")],
         [("_id", .str "b"), ("priority", .str "low")],
         [("_id", .str "c"), ("priority", .str "high")]]
        [("priority", .str "high")] ∧
    linearFilter
        [[("_id", .str "a"), ("priority", .str "high")],
         [("_id", .str "b"), ("priority", .str "low")],
         [("_id", .str "c"), ("priority", .str "high")]]
        [("priority", .str "high")]
      = [[("_id", .str "a"), ("priority", .str "high")],
         [("_id", .str "c"), ("priority", .str "high")]] :=
  ⟨applyFilters_eq_linearFilter_of_index_agrees
      [("tasks", [("priority", [("high", ["a", "c"]), ("low", ["b"])])])]
      "tasks"
      [[("_id", .str "a"), ("priority", .str "high")],
       [("_id", .str "b"), ("priority", .str "low")],
       [("_id", .str "c"), ("priority", .str "high")]]
      [("priority", .str "high")]
      (by decide) (by decide),
   rfl⟩

-- ===== C6: the value resolver =====

/-- Counterexample for C6 as frozen: with a caller identity present, a
`caller.<field>` reference is *not* resolved against the caller — the
resolver has no `caller.` case, so the string falls through to the bare
string literal branch. -/
theorem caller_reference_not_resolved :
    resolveValue (.str "caller.id")
      ⟨[("email", .str "e")], [], some ⟨"u1", "admin"⟩⟩ = .str "caller.id" ∧
    Value.str "caller.id" ≠ Value.str "u1" :=
  ⟨rfl, by simp⟩

/-- C6 (amended): the one uniform resolver handles `input.<field>`,
`context.<var>[.<subfield>...]`, the caller identity under the prefix
`user.<field>` (not `caller.<field>`), the JSON-literal tokens
`true`/`false`/`null`, numerics, and falls back to the bare string
literal — and a `caller.<field>` reference is treated as a bare string
literal. -/
theorem resolveValue_uniform_user_prefixed (ctx : ExecutionContext)
    (u : UserInfo) (h : ctx.user = some u) :
    resolveValue (.str "input.email") ctx = recGet ctx.input "email" ∧
    resolveValue (.str "context.x.y") ctx = getPath (.obj ctx.vars) ["x", "y"] ∧
    resolveValue (.str "user.id") ctx = .str u.id ∧
    resolveValue (.str "user.role") ctx = .str u.role ∧
    resolveValue (.str "true") ctx = .bool true ∧
    resolveValue (.str "false") ctx = .bool false ∧
    resolveValue (.str "null") ctx = .null ∧
    resolveValue (.str "42") ctx = .num 42 ∧
    resolveValue (.str "-7") ctx = .num (-7) ∧
    resolveValue (.str "hello") ctx = .str "hello" ∧
    resolveValue (.str "caller.id") ctx = .str "caller.id" := by
  obtain ⟨inp, vars, user⟩ := ctx
  dsimp only at h
  subst h
  exact ⟨rfl, rfl, rfl, rfl, rfl, rfl, rfl, rfl, rfl, rfl, rfl⟩

/-- Witness for C6 (amended) at a concrete execution context. -/
theorem resolveValue_uniform_user_prefixed_witness :
    resolveValue (.str "user.id")
      ⟨[("email", .str "e")], [("x", .obj [("y", .num 3)])],
        some ⟨"u1", "admin"⟩⟩ = .str "u1" ∧
    resolveValue (.str "context.x.y")
      ⟨[("email", .str "e")], [("x", .obj [("y", .num 3)])],
        some ⟨"u1", "admin"⟩⟩
      = getPath (.obj [("x", .obj [("y", .num 3)])]) ["x", "y"] :=
  ⟨(resolveValue_uniform_user_prefixed
      ⟨[("email", .str "e")], [("x", .obj [("y", .num 3)])],
        some ⟨"u1", "admin"⟩⟩ ⟨"u1", "admin"⟩ rfl).2.2.1,
   (resolveValue_uniform_user_prefixed
      ⟨[("email", .str "e")], [("x", .obj [("y", .num 3)])],
        some ⟨"u1", "admin"⟩⟩ ⟨"u1", "admin"⟩ rfl).2.1⟩

-- ===== C7: saga compensation on step failure =====

theorem executeSteps_error_spec {σ : Type} (SI : σ → Nat)
    (SE : σ → Rec → Except String Value)
    (comps : List WorkflowCompensation) (k : Nat) (msg : String) :
    ∀ (steps : List σ) (ctx : Rec) (acc : List StepResult),
      (∀ sr ∈ acc, sr.status = .completed) →
      (executeSteps SI SE comps steps ctx acc).error = some (k, msg) →
      (executeSteps SI SE comps steps ctx acc).success = false ∧
      (executeSteps SI SE comps steps ctx acc).stepResults.getLast? =
        some ⟨k, .failed, none, some msg⟩ ∧
      (∀ sr ∈ (executeSteps SI SE comps steps ctx acc).stepResults.dropLast,
        sr.status = .completed) ∧
      (executeSteps SI SE comps steps ctx acc).compensationResults =
        some (runCompensations comps k) := by
  intro steps
  induction steps with
  | nil =>
    intro ctx acc hacc herr
    simp [executeSteps] at herr
  | cons s rest ih =>
    intro ctx acc hacc herr
    cases hse : SE s ctx with
    | ok result =>
      have hstep : executeSteps SI SE comps (s :: rest) ctx acc =
          executeSteps SI SE comps rest
            (setField ctx ("step" ++ toString (SI s)) result)
            (acc ++ [⟨SI s, .completed, some result, none⟩]) := by
        simp only [executeSteps, hse]
      rw [hstep] at herr ⊢
      refine ih _ _ ?_ herr
      intro sr hsr
      rcases List.mem_append.mp hsr with hsr | hsr
      · exact hacc sr hsr
      · simp only [List.mem_singleton] at hsr
        rw [hsr]
    | error m =>
      have hstep : executeSteps SI SE comps (s :: rest) ctx acc =
          { success := false,
            stepResults := acc ++ [⟨SI s, .failed, none, some m⟩],
            error := some (SI s, m),
            compensationResults := some (runCompensations comps (SI s)) } := by
        simp only [executeSteps, hse]
      rw [hstep] at herr ⊢
      simp only at herr
      obtain ⟨h1, h2⟩ : SI s = k ∧ m = msg := by
        injection herr with h'
        exact ⟨congrArg Prod.fst h', congrArg Prod.snd h'⟩
      subst h1
      subst h2
      refine ⟨rfl, ?_, ?_, rfl⟩
      · exact List.getLast?_concat _
      · intro sr hsr
        have hsr' : sr ∈
            (acc ++ [(⟨SI s, .failed, none, some m⟩ : StepResult)]).dropLast :=
          hsr
        rw [List.dropLast_concat] at hsr'
        exact hacc sr hsr'

/-- C7: if a workflow run fails at step index `k`, forward execution
stops there (the failed entry is the last step result, everything before
it completed), the compensations that run are exactly those declared for
`k` or for the catch-all wildcard — each reported next to the original
failure — and every reported compensation is for `k` or the wildcard (a
compensation declared only for a different step index never runs). -/
theorem workflow_failure_runs_matching_compensations {σ : Type}
    (stepIndex : σ → Nat) (stepExec : σ → Rec → Except String Value)
    (steps : List σ) (compensations : List WorkflowCompensation) (ctx : Rec)
    (k : Nat) (msg : String)
    (h : (executeWorkflow stepIndex stepExec steps compensations ctx).error =
      some (k, msg)) :
    (executeWorkflow stepIndex stepExec steps compensations ctx).success
      = false ∧
    (executeWorkflow stepIndex stepExec steps compensations
      ctx).stepResults.getLast? = some ⟨k, .failed, none, some msg⟩ ∧
    (∀ sr ∈ (executeWorkflow stepIndex stepExec steps compensations
        ctx).stepResults.dropLast, sr.status = .completed) ∧
    (executeWorkflow stepIndex stepExec steps compensations
        ctx).compensationResults =
      some ((compensations.filter (compApplies k)).map
        (fun c => ⟨c.forStep, true, c.action, none⟩)) ∧
    (∀ cr ∈ ((executeWorkflow stepIndex stepExec steps compensations
        ctx).compensationResults.getD []),
      (cr.forStep = ForStep.idx k ∨ cr.forStep = ForStep.wildcard) ∧
      cr.success = true) := by
  unfold executeWorkflow at h ⊢
  have hspec := executeSteps_error_spec stepIndex stepExec compensations k msg
    steps ctx [] (by intro sr hsr; simp at hsr) h
  refine ⟨hspec.1, hspec.2.1, hspec.2.2.1, ?_, ?_⟩
  · rw [hspec.2.2.2]
    rfl
  · intro cr hcr
    rw [hspec.2.2.2] at hcr
    simp only [Option.getD_some] at hcr
    unfold runCompensations at hcr
    obtain ⟨c, hc, rfl⟩ := List.mem_map.mp hcr
    have hap := (List.mem_filter.mp hc).2
    refine ⟨?_, rfl⟩
    unfold compApplies at hap
    cases hcf : c.forStep with
    | idx n =>
      left
      rw [hcf] at hap
      simp only [beq_iff_eq] at hap
      simp [hcf, hap]
    | wildcard =>
      right
      simp [hcf]

/-- Witness for C7: five steps with the third failing; exactly the
compensations for step 3 and the wildcard run. -/
theorem workflow_failure_runs_matching_compensations_witness :
    (executeWorkflow (fun n => n)
      (fun n _ => if n == 3 then .error "boom" else .ok (.str "done"))
      [1, 2, 3, 4, 5]
      [⟨.idx 3, "undo step 3"⟩, ⟨.wildcard, "always"⟩, ⟨.idx 2, "undo step 2"⟩,
       ⟨.idx 4, "undo step 4"⟩] []).success = false ∧
    (executeWorkflow (fun n => n)
      (fun n _ => if n == 3 then .error "boom" else .ok (.str "done"))
      [1, 2, 3, 4, 5]
      [⟨.idx 3, "undo step 3"⟩, ⟨.wildcard, "always"⟩, ⟨.idx 2, "undo step 2"⟩,
       ⟨.idx 4, "undo step 4"⟩] []).compensationResults =
      some [⟨.idx 3, true, "undo step 3", none⟩,
            ⟨.wildcard, true, "always", none⟩] := by
  have hw := workflow_failure_runs_matching_compensations (fun n => n)
    (fun n _ => if n == 3 then .error "boom" else .ok (.str "done"))
    [1, 2, 3, 4, 5]
    [⟨.idx 3, "undo step 3"⟩, ⟨.wildcard, "always"⟩, ⟨.idx 2, "undo step 2"⟩,
     ⟨.idx 4, "undo step 4"⟩] [] 3 "boom" rfl
  refine ⟨hw.1, ?_⟩
  rw [hw.2.2.2.1]
  rfl

-- ===== C5: the rule engine never raises (amended) =====

/-- Counterexample for C5 as frozen: a `field_unique_in` condition naming
an unknown collection makes `evaluateRules` propagate the database's
thrown unknown-collection error instead of returning null/violation. -/
theorem evaluateRules_can_raise :
    evaluateRules
      [⟨"uniqueness", "validation",
        [⟨"email must be unique", ["*"],
          [.fieldUniqueIn "email" "nope" []], "duplicate_email",
          "Email already exists"⟩]⟩]
      ⟨"recipes_create", [("email", .str "a@b")], none, none⟩
      ⟨[], []⟩
      = .error "Collection nope not found" := rfl

theorem mem_sortedRuleSets {rs : CompiledRuleSet}
    {l : List CompiledRuleSet} (h : rs ∈ sortedRuleSets l) : rs ∈ l := by
  simp only [sortedRuleSets, List.mem_append, List.mem_filter] at h
  tauto

theorem find?_append {α : Type} (p : α → Bool) :
    ∀ (l1 l2 : List α), (l1 ++ l2).find? p =
      match l1.find? p with
      | some a => some a
      | none => l2.find? p := by
  intro l1 l2
  induction l1 with
  | nil => simp
  | cons a rest ih =>
    by_cases ha : p a = true
    · rw [List.cons_append, List.find?_cons_of_pos _ ha,
        List.find?_cons_of_pos _ ha]
    · rw [List.cons_append, List.find?_cons_of_neg _ (by simpa using ha),
        List.find?_cons_of_neg _ (by simpa using ha), ih]

theorem find?_map_mk (name : String) (q : CompiledRule → Bool) :
    ∀ (rules : List CompiledRule),
      ((rules.map (fun r => (name, r))).find?
        (fun p : String × CompiledRule => q p.2)) =
        (rules.find? q).map (fun r => (name, r)) := by
  intro rules
  induction rules with
  | nil => simp
  | cons r rest ih =>
    by_cases hr : q r = true
    · rw [List.map_cons, List.find?_cons_of_pos _ (by simpa using hr),
        List.find?_cons_of_pos _ hr]
      rfl
    · rw [List.map_cons, List.find?_cons_of_neg _ (by simpa using hr),
        List.find?_cons_of_neg _ (by simpa using hr), ih]

theorem evaluateCondition_ok_of_safe (ctx : RuleContext) (db : DBState) :
    ∀ c, condDbSafeB db c = true →
      ∃ b, evaluateCondition c ctx db = .ok b := by
  intro c h
  cases c <;> try exact ⟨_, rfl⟩
  case fieldUniqueIn f coll scope =>
    simp only [condDbSafeB] at h
    obtain ⟨cd, hl⟩ := Option.isSome_iff_exists.mp h
    simp only [evaluateCondition, listData, hl]
    by_cases ht : (!truthy (recGet ctx.input f)) = true
    · rw [if_pos ht]
      exact ⟨true, rfl⟩
    · rw [if_neg ht]
      exact ⟨_, rfl⟩

theorem evalConditions_of_safe (rule : CompiledRule) (name : String)
    (ctx : RuleContext) (db : DBState) :
    ∀ conds, (∀ c ∈ conds, condDbSafeB db c = true) →
      evalConditions rule name ctx db conds =
        .ok (if conds.any (condFailsB ctx db) then some (mkViolation rule name)
             else none) := by
  intro conds
  induction conds with
  | nil => intro _; simp [evalConditions]
  | cons c rest ih =>
    intro h
    obtain ⟨b, hb⟩ := evaluateCondition_ok_of_safe ctx db c (h c (by simp))
    have hrest := fun c hc => h c (List.mem_cons_of_mem _ hc)
    simp only [evalConditions, hb, List.any_cons]
    cases b with
    | true =>
      have hcf : condFailsB ctx db c = false := by simp [condFailsB, hb]
      simp [ih hrest, hcf]
    | false =>
      have hcf : condFailsB ctx db c = true := by simp [condFailsB, hb]
      simp [hcf]

theorem evaluateRule_of_safe (rule : CompiledRule) (name : String)
    (ctx : RuleContext) (db : DBState)
    (h : ∀ c ∈ rule.conditions, condDbSafeB db c = true) :
    evaluateRule rule name ctx db =
      .ok (if ruleViolated ctx db rule then some (mkViolation rule name)
           else none) := by
  unfold evaluateRule ruleViolated
  exact evalConditions_of_safe rule name ctx db rule.conditions h

theorem evalRulesList_of_safe (name : String) (ctx : RuleContext)
    (db : DBState) :
    ∀ rules, (∀ rule ∈ rules, ∀ c ∈ rule.conditions, condDbSafeB db c = true) →
      evalRulesList name ctx db rules =
        .ok ((rules.find? (fun r =>
            ruleApplies r ctx.toolName && ruleViolated ctx db r)).map
          (fun r => mkViolation r name)) := by
  intro rules
  induction rules with
  | nil => intro _; simp [evalRulesList]
  | cons rule rest ih =>
    intro h
    have hrule := fun c hc => h rule (by simp) c hc
    have hrest := fun r hr c hc => h r (List.mem_cons_of_mem _ hr) c hc
    simp only [evalRulesList]
    by_cases ha : ruleApplies rule ctx.toolName = true
    · rw [if_neg (by simp [ha])]
      by_cases hv : ruleViolated ctx db rule = true
      · have hr_eq : evaluateRule rule name ctx db =
            .ok (some (mkViolation rule name)) := by
          rw [evaluateRule_of_safe rule name ctx db hrule, if_pos hv]
        rw [hr_eq, List.find?_cons_of_pos _ (by simp [ha, hv])]
        rfl
      · have hr_eq : evaluateRule rule name ctx db = .ok none := by
          rw [evaluateRule_of_safe rule name ctx db hrule, if_neg hv]
        rw [hr_eq, List.find?_cons_of_neg _ (by simp [ha, hv]), ih hrest]
    · rw [if_pos (by simp [ha]),
        List.find?_cons_of_neg _ (by simp [ha]), ih hrest]

theorem evalRuleSetsList_of_safe (ctx : RuleContext) (db : DBState) :
    ∀ sets, (∀ rs ∈ sets, ∀ rule ∈ rs.rules, ∀ c ∈ rule.conditions,
        condDbSafeB db c = true) →
      evalRuleSetsList ctx db sets =
        .ok (((sets.flatMap (fun rs => rs.rules.map (fun r => (rs.name, r)))).find?
            (fun p => ruleApplies p.2 ctx.toolName && ruleViolated ctx db p.2)).map
          (fun p => mkViolation p.2 p.1)) := by
  intro sets
  induction sets with
  | nil => intro _; simp [evalRuleSetsList]
  | cons rs rest ih =>
    intro h
    have hrs := fun rule hr c hc => h rs (by simp) rule hr c hc
    have hrest := fun rs' hr rule hrr c hc =>
      h rs' (List.mem_cons_of_mem _ hr) rule hrr c hc
    have h1 := evalRulesList_of_safe rs.name ctx db rs.rules hrs
    simp only [evalRuleSetsList, h1, List.flatMap_cons]
    rw [find?_append]
    rw [find?_map_mk rs.name
      (fun r => ruleApplies r ctx.toolName && ruleViolated ctx db r) rs.rules]
    cases hf : rs.rules.find?
        (fun r => ruleApplies r ctx.toolName && ruleViolated ctx db r) with
    | some r => rfl
    | none => simpa using ih hrest

/-- C5 (amended): provided every `field_unique_in` condition in the rule
sets names a collection known to the database, `evaluateRules` never
raises: it returns `.ok` of either `none` (all applicable rules pass) or
exactly one violation, built from the first applicable violated rule in
category-priority order — carrying that rule's declared failure code and
message.  (Without the proviso it can raise: see the counterexample.) -/
theorem evaluateRules_total_first_violation (ruleSets : List CompiledRuleSet)
    (ctx : RuleContext) (db : DBState)
    (h : ∀ rs ∈ ruleSets, ∀ rule ∈ rs.rules, ∀ c ∈ rule.conditions,
      condDbSafeB db c = true) :
    evaluateRules ruleSets ctx db =
      .ok ((firstViolatedRule ruleSets ctx db).map
        (fun p => mkViolation p.2 p.1)) := by
  unfold evaluateRules firstViolatedRule
  exact evalRuleSetsList_of_safe ctx db (sortedRuleSets ruleSets)
    (fun rs hrs => h rs (mem_sortedRuleSets hrs))

/-- Witness for C5 (amended): two rule sets, the permissions set listed
second but evaluated first; both rules are violated and the permissions
rule's declared code/message is returned. -/
theorem evaluateRules_total_first_violation_witness :
    evaluateRules
      [⟨"validation-set", "validation",
        [⟨"v-desc", ["*"], [.fieldExists "name"], "missing_name",
          "name required"⟩]⟩,
       ⟨"perm-set", "permissions",
        [⟨"p-desc", ["*"], [.roleIs "admin"], "not_admin", "admin only"⟩]⟩]
      ⟨"recipes_create", [], none, none⟩ ⟨[], []⟩
      = .ok (some ⟨"not_admin", "admin only", "perm-set", "p-desc"⟩) := by
  have h := evaluateRules_total_first_violation
    [⟨"validation-set", "validation",
      [⟨"v-desc", ["*"], [.fieldExists "name"], "missing_name",
        "name required"⟩]⟩,
     ⟨"perm-set", "permissions",
      [⟨"p-desc", ["*"], [.roleIs "admin"], "not_admin", "admin only"⟩]⟩]
    ⟨"recipes_create", [], none, none⟩ ⟨[], []⟩ (by decide)
  rw [h]
  rfl

end NLBackend
